import Mathlib

/-!
Verification of `src/backup/find_hardlinks.py` (hardlink scanner).

Shallow embedding: a `Path` is the list of its components (as produced by
`pathlib`); the filesystem is a record of the three metadata operations the
script performs (`Path.stat().st_ino` with `FileNotFoundError` as `none`,
`Path.is_symlink()`, `Path.resolve()`).  The two `Path.walk()` enumerations
are inputs: lists of `(directory path, file names)` pairs, exactly what the
`for path, _, files in ....walk()` loops consume.  `defaultdict(int, list)`
and `dict` become association lists preserving Python's key insertion order.
The thread pools execute one independent per-file task each; the spec fixes
no ordering inside a phase, so the embedding processes the submitted tasks
sequentially in submission order (one linearization), with the phase barrier
between indexing, classification and emission that the code's `with` blocks
enforce.
-/

namespace FindHardlinks

/-- A filesystem path, as its list of components (mirrors `pathlib.PurePath.parts`). -/
abbrev Path := List String

/-- `p.is_relative_to(q)` for absolute pure paths: `q`'s components are a prefix of `p`'s. -/
def isRelativeTo (p q : Path) : Bool := List.isPrefixOf q p

/-- The filesystem metadata operations used by the script.
`inodeOf` models `Path.stat().st_ino` (follows symlinks); `none` models the
stat call raising `FileNotFoundError`.  `isSymlink` models `Path.is_symlink()`
and `resolveLink` models `Path.resolve()` (neither raises). -/
structure FileSystem where
  inodeOf : Path → Option Nat
  isSymlink : Path → Bool
  resolveLink : Path → Path

/-- `originals_inode_map : dict[Path, int]` as an insertion-ordered association list. -/
abbrev InodeMap := List (Path × Nat)

/-- `paths_per_inode / seen_inodes_map : defaultdict[int, list[Path]]` as an
insertion-ordered association list. -/
abbrev PathsPerInode := List (Nat × List Path)

/-- Dict lookup: first (unique) binding of key `i`. -/
def lookupGroup : PathsPerInode → Nat → Option (List Path)
  | [], _ => none
  | (k, g) :: rest, i => if k = i then some g else lookupGroup rest i

/-- `inode in paths_per_inode`. -/
def containsKey (m : PathsPerInode) (i : Nat) : Bool := (lookupGroup m i).isSome

/-- `m[i].append(p)` on a `defaultdict(list)`: appends `p` to the group of `i`,
creating the group `[p]` (at the end, in insertion order) when `i` is absent. -/
def appendTo : PathsPerInode → Nat → Path → PathsPerInode
  | [], i, p => [(i, [p])]
  | (k, g) :: rest, i, p =>
    if k = i then (k, g ++ [p]) :: rest else (k, g) :: appendTo rest i p

/-- `inode_map[p] = i` on a `dict`: overwrite in place or insert at the end. -/
def insertPI : InodeMap → Path → Nat → InodeMap
  | [], p, i => [(p, i)]
  | (q, j) :: rest, p, i =>
    if q = p then (q, i) :: rest else (q, j) :: insertPI rest p i

/-- `add_file_inode_to_map(file_path, inode_map, seen_inodes_map)`:
stat the file; on success record `path ↦ inode` and append the path to the
inode's group; on `FileNotFoundError` leave both maps untouched. -/
def add_file_inode_to_map (fs : FileSystem) (file_path : Path)
    (st : InodeMap × PathsPerInode) : InodeMap × PathsPerInode :=
  match fs.inodeOf file_path with
  | none => st
  | some inode => (insertPI st.1 file_path inode, appendTo st.2 inode file_path)

/-- Body of `check_if_file_is_hardlink` from the `is_relative_to` test on:
applied to the (possibly symlink-resolved) path. -/
def classifyStep (fs : FileSystem) (originals_directory_path : Path)
    (paths_per_inode : PathsPerInode) (file_path : Path) : PathsPerInode :=
  if isRelativeTo file_path originals_directory_path then paths_per_inode
  else
    match fs.inodeOf file_path with
    | none => paths_per_inode
    | some inode =>
      if containsKey paths_per_inode inode then appendTo paths_per_inode inode file_path
      else paths_per_inode

/-- `check_if_file_is_hardlink(file_path, paths_per_inode, *, skip_symlinks,
originals_directory_path)`: skip symlinks or resolve them per policy, ignore
paths inside the originals tree, then append to an existing inode group. -/
def check_if_file_is_hardlink (fs : FileSystem) (file_path : Path)
    (paths_per_inode : PathsPerInode) (skip_symlinks : Bool)
    (originals_directory_path : Path) : PathsPerInode :=
  if fs.isSymlink file_path then
    if skip_symlinks then paths_per_inode
    else classifyStep fs originals_directory_path paths_per_inode
      (fs.resolveLink file_path)
  else classifyStep fs originals_directory_path paths_per_inode file_path

/-- The path a classified file is appended under: itself, or its `resolve()`
target when it is a symlink and the policy resolves symlinks. -/
def effPath (fs : FileSystem) (skip_symlinks : Bool) (f : Path) : Path :=
  if fs.isSymlink f && !skip_symlinks then fs.resolveLink f else f

/-- Phase 1 from a given state: every submitted file runs `add_file_inode_to_map`. -/
def runIndexFrom (fs : FileSystem) (files : List Path)
    (st : InodeMap × PathsPerInode) : InodeMap × PathsPerInode :=
  files.foldl (fun s p => add_file_inode_to_map fs p s) st

/-- Phase 2 from a given map: every submitted file runs `check_if_file_is_hardlink`. -/
def runClassifyFrom (fs : FileSystem) (skip_symlinks : Bool)
    (originals_directory_path : Path) (files : List Path)
    (ppi : PathsPerInode) : PathsPerInode :=
  files.foldl (fun m p =>
    check_if_file_is_hardlink fs p m skip_symlinks originals_directory_path) ppi

/-- The file paths `path / file` produced by a walk's nested loops. -/
def walkFiles (walk : List (Path × List String)) : List Path :=
  walk.flatMap (fun d => d.2.map (fun f => d.1 ++ [f]))

/-- Negation of the skip test of the root walk:
`any(path.is_relative_to(skip_dir) for skip_dir in skip_directories)`. -/
def notSkipped (skip_directories : List Path) (d : Path) : Bool :=
  !(skip_directories.any (fun s => isRelativeTo d s))

/-- The file paths the root walk actually submits to the classifier:
directories matching a skip-directory are `continue`d over. -/
def rootFiles (skip_directories : List Path)
    (walk : List (Path × List String)) : List Path :=
  walkFiles (walk.filter (fun d => notSkipped skip_directories d.1))

/-- The emitter's per-group work (loop body of lines 109-116):
`paths[0]` is read first (`none` models the `IndexError` an empty group would
raise), then the group is printed iff `len(paths) - 1 >= min_links`,
the designated original first when `include_originals_in_output`. -/
def emitGroup (min_links : Int) (include_originals_in_output : Bool)
    (paths : List Path) : Option (List Path) :=
  match paths with
  | [] => none
  | original_file :: rest =>
    if ((original_file :: rest).length : Int) - 1 ≥ min_links then
      some ((if include_originals_in_output then [original_file] else []) ++ rest)
    else some []

/-- The emitter over all groups, in key insertion order; the printed lines. -/
def emit (min_links : Int) (include_originals_in_output : Bool) :
    PathsPerInode → Option (List Path)
  | [] => some []
  | (_, paths) :: rest =>
    match emitGroup min_links include_originals_in_output paths,
          emit min_links include_originals_in_output rest with
    | some block, some more => some (block ++ more)
    | _, _ => none

/-- Outcome of a `find_hardlinks` run: the `ValueError` of the `min_links`
validation, the `IndexError` an empty group would raise in the emitter, or a
normal run recording which output file was opened (`(to_file, append?)`,
`none` = stdout) and the lines printed, in order. -/
inductive FindResult where
  | valueError (msg : String)
  | indexError
  | ok (opened : Option (Path × Bool)) (lines : List Path)
deriving DecidableEq, Repr

/-- `find_hardlinks(root_directory, originals_directory, min_links, to_file,
append_to_file, skip_symlinks, include_originals_in_output, skip_directories)`.
`originals_walk` and `root_walk` are the enumerations `.walk()` returns for
the two (absolute) directories; `originals_directory_path` is the absolute
originals path the classifier compares against. -/
def find_hardlinks (fs : FileSystem)
    (originals_walk root_walk : List (Path × List String))
    (originals_directory_path : Path)
    (min_links : Int) (to_file : Option Path) (append_to_file : Bool)
    (skip_symlinks : Bool) (include_originals_in_output : Bool)
    (skip_directories : List Path) : FindResult :=
  if min_links < 1 then FindResult.valueError "min_links must be at least 1"
  else
    match emit min_links include_originals_in_output
        (runClassifyFrom fs skip_symlinks originals_directory_path
          (rootFiles skip_directories root_walk)
          (runIndexFrom fs (walkFiles originals_walk) ([], [])).2) with
    | some lines =>
      FindResult.ok (to_file.map (fun t => (t, append_to_file))) lines
    | none => FindResult.indexError

/-! ### Concrete example filesystem (spec section 8's end-to-end scenario,
extended with a symlink `root/L → orig/A` and a vanished file `root/gone`
that are not part of either walk) -/

/-- Example filesystem: originals tree `orig` holds `A` (inode 100) and `B`
(inode 200); root tree `root` holds `A2`, `A3` (inode 100) and `C` (inode 300).
`root/L` is a symlink resolving to `orig/A`; every other path fails to stat. -/
def exFS : FileSystem where
  inodeOf p :=
    if p = ["orig", "A"] then some 100
    else if p = ["orig", "B"] then some 200
    else if p = ["root", "A2"] then some 100
    else if p = ["root", "A3"] then some 100
    else if p = ["root", "C"] then some 300
    else none
  isSymlink p := p == ["root", "L"]
  resolveLink p := if p = ["root", "L"] then ["orig", "A"] else p

/-- Walk of the originals tree for `exFS`. -/
def exOW : List (Path × List String) := [(["orig"], ["A", "B"])]

/-- Walk of the root tree for `exFS`. -/
def exRW : List (Path × List String) := [(["root"], ["A2", "A3", "C"])]

/-! ### Helper lemmas about the association-list operations -/

lemma lookupGroup_appendTo_self (m : PathsPerInode) (i : Nat) (p : Path) :
    lookupGroup (appendTo m i p) i = some (((lookupGroup m i).getD []) ++ [p]) := by
  induction m with
  | nil => simp [appendTo, lookupGroup]
  | cons e rest ih =>
    obtain ⟨q, g⟩ := e
    by_cases h : q = i
    · subst h; simp [appendTo, lookupGroup]
    · simp [appendTo, lookupGroup, h, ih]

lemma lookupGroup_appendTo_ne (m : PathsPerInode) (i : Nat) (p : Path) (k : Nat)
    (hki : k ≠ i) : lookupGroup (appendTo m i p) k = lookupGroup m k := by
  induction m with
  | nil => simp [appendTo, lookupGroup, Ne.symm hki]
  | cons e rest ih =>
    obtain ⟨q, g⟩ := e
    by_cases h : q = i
    · subst h
      simp [appendTo, lookupGroup, Ne.symm hki]
    · simp [appendTo, lookupGroup, h, ih]

lemma classifyStep_cases (fs : FileSystem) (orig : Path) (ppi : PathsPerInode)
    (q : Path) :
    classifyStep fs orig ppi q = ppi ∨
    ∃ i, fs.inodeOf q = some i ∧ containsKey ppi i = true ∧
      classifyStep fs orig ppi q = appendTo ppi i q := by
  unfold classifyStep
  by_cases hrel : isRelativeTo q orig
  · left; simp [hrel]
  · cases hino : fs.inodeOf q with
    | none => left; simp [hrel]
    | some i =>
      by_cases hck : containsKey ppi i
      · right; exact ⟨i, rfl, hck, by simp [hrel, hck]⟩
      · left; simp [hrel, hck]

lemma classifyStep_of_inodeOf_none (fs : FileSystem) (orig : Path)
    (ppi : PathsPerInode) (q : Path) (h : fs.inodeOf q = none) :
    classifyStep fs orig ppi q = ppi := by
  unfold classifyStep
  by_cases hrel : isRelativeTo q orig <;> simp [hrel, h]

lemma check_cases (fs : FileSystem) (ss : Bool) (orig fp : Path)
    (ppi : PathsPerInode) :
    check_if_file_is_hardlink fs fp ppi ss orig = ppi ∨
    ∃ i, fs.inodeOf (effPath fs ss fp) = some i ∧ containsKey ppi i = true ∧
      check_if_file_is_hardlink fs fp ppi ss orig =
        appendTo ppi i (effPath fs ss fp) := by
  unfold check_if_file_is_hardlink effPath
  by_cases hsym : fs.isSymlink fp
  · cases ss with
    | true => left; simp [hsym]
    | false => simpa [hsym] using classifyStep_cases fs orig ppi (fs.resolveLink fp)
  · simpa [hsym] using classifyStep_cases fs orig ppi fp

lemma runClassifyFrom_nil (fs : FileSystem) (ss : Bool) (orig : Path)
    (ppi : PathsPerInode) : runClassifyFrom fs ss orig [] ppi = ppi := rfl

lemma runClassifyFrom_cons (fs : FileSystem) (ss : Bool) (orig : Path)
    (f : Path) (files : List Path) (ppi : PathsPerInode) :
    runClassifyFrom fs ss orig (f :: files) ppi =
      runClassifyFrom fs ss orig files
        (check_if_file_is_hardlink fs f ppi ss orig) := rfl

lemma runIndexFrom_nil (fs : FileSystem) (st : InodeMap × PathsPerInode) :
    runIndexFrom fs [] st = st := rfl

lemma runIndexFrom_cons (fs : FileSystem) (f : Path) (files : List Path)
    (st : InodeMap × PathsPerInode) :
    runIndexFrom fs (f :: files) st =
      runIndexFrom fs files (add_file_inode_to_map fs f st) := rfl

lemma lookupGroup_runClassifyFrom_none (fs : FileSystem) (ss : Bool)
    (orig : Path) (k : Nat) :
    ∀ (files : List Path) (ppi : PathsPerInode), lookupGroup ppi k = none →
      lookupGroup (runClassifyFrom fs ss orig files ppi) k = none := by
  intro files
  induction files with
  | nil => intro ppi h; simpa [runClassifyFrom_nil] using h
  | cons f rest ih =>
    intro ppi h
    rw [runClassifyFrom_cons]
    apply ih
    rcases check_cases fs ss orig f ppi with heq | ⟨i, _, hck, heq⟩
    · rw [heq]; exact h
    · rw [heq, lookupGroup_appendTo_ne]
      · exact h
      · intro hki
        subst hki
        rw [containsKey, h] at hck
        simp at hck

lemma lookupGroup_runClassifyFrom (fs : FileSystem) (ss : Bool)
    (orig : Path) (k : Nat) :
    ∀ (files : List Path) (ppi : PathsPerInode) (g : List Path),
      lookupGroup ppi k = some g →
      ∃ extra, lookupGroup (runClassifyFrom fs ss orig files ppi) k
          = some (g ++ extra) ∧
        ∀ p ∈ extra, ∃ f ∈ files, p = effPath fs ss f := by
  intro files
  induction files with
  | nil =>
    intro ppi g h
    exact ⟨[], by simpa [runClassifyFrom_nil] using h, by simp⟩
  | cons f rest ih =>
    intro ppi g h
    rw [runClassifyFrom_cons]
    rcases check_cases fs ss orig f ppi with heq | ⟨i, _, _, heq⟩
    · rw [heq]
      obtain ⟨extra, h1, h2⟩ := ih ppi g h
      exact ⟨extra, h1, fun p hp =>
        let ⟨f', hf', he⟩ := h2 p hp
        ⟨f', List.mem_cons_of_mem _ hf', he⟩⟩
    · rw [heq]
      by_cases hki : k = i
      · subst hki
        have hl : lookupGroup (appendTo ppi k (effPath fs ss f)) k
            = some (g ++ [effPath fs ss f]) := by
          rw [lookupGroup_appendTo_self, h]
          rfl
        obtain ⟨extra, h1, h2⟩ := ih _ _ hl
        refine ⟨effPath fs ss f :: extra, ?_, ?_⟩
        · rw [h1, List.append_assoc]
          simp
        · intro p hp
          rcases List.mem_cons.mp hp with he | hp'
          · exact ⟨f, List.mem_cons_self _ _, he⟩
          · obtain ⟨f', hf', he⟩ := h2 p hp'
            exact ⟨f', List.mem_cons_of_mem _ hf', he⟩
      · have hl : lookupGroup (appendTo ppi i (effPath fs ss f)) k = some g := by
          rw [lookupGroup_appendTo_ne _ _ _ _ hki]; exact h
        obtain ⟨extra, h1, h2⟩ := ih _ _ hl
        exact ⟨extra, h1, fun p hp =>
          let ⟨f', hf', he⟩ := h2 p hp
          ⟨f', List.mem_cons_of_mem _ hf', he⟩⟩

lemma runIndexFrom_groups (fs : FileSystem) (src : List Path) :
    ∀ (files : List Path) (st : InodeMap × PathsPerInode),
      (∀ f ∈ files, f ∈ src) →
      (∀ k g, lookupGroup st.2 k = some g →
        g ≠ [] ∧ ∀ p ∈ g, p ∈ src ∧ fs.inodeOf p = some k) →
      ∀ k g, lookupGroup (runIndexFrom fs files st).2 k = some g →
        g ≠ [] ∧ ∀ p ∈ g, p ∈ src ∧ fs.inodeOf p = some k := by
  intro files
  induction files with
  | nil =>
    intro st _ hinv k g h
    exact hinv k g (by simpa [runIndexFrom_nil] using h)
  | cons f rest ih =>
    intro st hsrc hinv k g h
    rw [runIndexFrom_cons] at h
    refine ih _ (fun f' hf' => hsrc f' (List.mem_cons_of_mem _ hf')) ?_ k g h
    intro k' g' h'
    unfold add_file_inode_to_map at h'
    cases hino : fs.inodeOf f with
    | none =>
      rw [hino] at h'
      exact hinv k' g' h'
    | some i =>
      rw [hino] at h'
      by_cases hk : k' = i
      · rw [hk] at h' ⊢
        rw [lookupGroup_appendTo_self] at h'
        cases hold : lookupGroup st.2 i with
        | none =>
          rw [hold] at h'
          simp only [Option.getD_none, List.nil_append, Option.some.injEq] at h'
          subst h'
          refine ⟨by simp, ?_⟩
          intro p hp
          simp only [List.mem_singleton] at hp
          subst hp
          exact ⟨hsrc _ (List.mem_cons_self _ _), hino⟩
        | some g0 =>
          rw [hold] at h'
          simp only [Option.getD_some, Option.some.injEq] at h'
          subst h'
          obtain ⟨_, hmem⟩ := hinv i g0 hold
          refine ⟨by simp, ?_⟩
          intro p hp
          rcases List.mem_append.mp hp with hp0 | hpf
          · exact hmem p hp0
          · simp only [List.mem_singleton] at hpf
            subst hpf
            exact ⟨hsrc _ (List.mem_cons_self _ _), hino⟩
      · rw [lookupGroup_appendTo_ne _ _ _ _ hk] at h'
        exact hinv k' g' h'

lemma appendTo_nonempty (m : PathsPerInode) (i : Nat) (p : Path)
    (h : ∀ e ∈ m, e.2 ≠ []) : ∀ e ∈ appendTo m i p, e.2 ≠ [] := by
  induction m with
  | nil =>
    intro e he
    simp only [appendTo, List.mem_singleton] at he
    subst he
    simp
  | cons e0 rest ih =>
    obtain ⟨q, g⟩ := e0
    intro e he
    by_cases hq : q = i
    · simp only [appendTo, if_pos hq] at he
      rcases List.mem_cons.mp he with he0 | her
      · subst he0; simp
      · exact h e (List.mem_cons_of_mem _ her)
    · simp only [appendTo, if_neg hq] at he
      rcases List.mem_cons.mp he with he0 | her
      · subst he0
        exact h _ (List.mem_cons_self _ _)
      · exact ih (fun e' he' => h e' (List.mem_cons_of_mem _ he')) e her

lemma runIndexFrom_nonempty (fs : FileSystem) :
    ∀ (files : List Path) (st : InodeMap × PathsPerInode),
      (∀ e ∈ st.2, e.2 ≠ []) →
      ∀ e ∈ (runIndexFrom fs files st).2, e.2 ≠ [] := by
  intro files
  induction files with
  | nil =>
    intro st h
    simpa [runIndexFrom_nil] using h
  | cons f rest ih =>
    intro st h
    rw [runIndexFrom_cons]
    apply ih
    unfold add_file_inode_to_map
    cases hino : fs.inodeOf f with
    | none => exact h
    | some i => exact appendTo_nonempty st.2 i f h

lemma runClassifyFrom_nonempty (fs : FileSystem) (ss : Bool) (orig : Path) :
    ∀ (files : List Path) (ppi : PathsPerInode),
      (∀ e ∈ ppi, e.2 ≠ []) →
      ∀ e ∈ runClassifyFrom fs ss orig files ppi, e.2 ≠ [] := by
  intro files
  induction files with
  | nil =>
    intro ppi h
    simpa [runClassifyFrom_nil] using h
  | cons f rest ih =>
    intro ppi h
    rw [runClassifyFrom_cons]
    apply ih
    rcases check_cases fs ss orig f ppi with heq | ⟨i, _, _, heq⟩
    · rw [heq]; exact h
    · rw [heq]
      exact appendTo_nonempty ppi i _ h

lemma emitGroup_cons_isSome (ml : Int) (io : Bool) (orig : Path)
    (rest : List Path) : ∃ b, emitGroup ml io (orig :: rest) = some b := by
  simp only [emitGroup]
  split_ifs <;> exact ⟨_, rfl⟩

lemma emit_isSome (ml : Int) (io : Bool) :
    ∀ (m : PathsPerInode), (∀ e ∈ m, e.2 ≠ []) →
      ∃ l, emit ml io m = some l := by
  intro m
  induction m with
  | nil => intro _; exact ⟨[], rfl⟩
  | cons e rest ih =>
    obtain ⟨k, g⟩ := e
    intro h
    have hg : g ≠ [] := h (k, g) (List.mem_cons_self _ _)
    obtain ⟨o, g', hgo⟩ : ∃ o g', g = o :: g' := by
      cases g with
      | nil => exact absurd rfl hg
      | cons a b => exact ⟨a, b, rfl⟩
    subst hgo
    obtain ⟨b, hb⟩ := emitGroup_cons_isSome ml io o g'
    obtain ⟨l, hl⟩ := ih (fun e' he' => h e' (List.mem_cons_of_mem _ he'))
    exact ⟨b ++ l, by simp [emit, hb, hl]⟩

lemma emit_append (ml : Int) (io : Bool) (a b : PathsPerInode) :
    emit ml io (a ++ b) =
      (emit ml io a).bind (fun x => (emit ml io b).map (fun y => x ++ y)) := by
  induction a with
  | nil =>
    cases e3 : emit ml io b <;> simp [emit, e3]
  | cons e rest ih =>
    obtain ⟨k, g⟩ := e
    simp only [List.cons_append, emit, List.append_eq]
    rw [ih]
    cases e1 : emitGroup ml io g <;> cases e2 : emit ml io rest <;>
      cases e3 : emit ml io b <;> simp [List.append_assoc]

/-! ### Claims -/

/-- Claim C1, counterexample: on the spec's own end-to-end scenario
(originals `A`=inode 100 and `B`=inode 200; root `A2`,`A3`=inode 100 and
`C`=inode 300), running with `min_links = 2` does NOT produce empty output:
inode 100's group holds `[A, A2, A3]`, so `len - 1 = 2 ≥ 2` and the code
prints `A2` and `A3`. -/
theorem claim1_counterexample :
    find_hardlinks exFS exOW exRW ["orig"] 2 none true true false []
      = FindResult.ok none [["root", "A2"], ["root", "A3"]] ∧
    FindResult.ok none [["root", "A2"], ["root", "A3"]]
      ≠ FindResult.ok none ([] : List Path) := by
  constructor
  · decide
  · decide

/-- Claim C1, amended: with `min_links = 1` the output is exactly `A2` and
`A3` (one per line) and nothing for `B` or `C`; with `min_links = 2` the
output is still exactly `A2` and `A3` (the group has two entries beyond the
original); the output first becomes empty at `min_links = 3`; and with
`min_links = 1` plus `include_originals_in_output = true` the output is
`A`, `A2`, `A3` with `A` first in its group's block. -/
theorem claim1_amended :
    find_hardlinks exFS exOW exRW ["orig"] 1 none true true false []
      = FindResult.ok none [["root", "A2"], ["root", "A3"]] ∧
    find_hardlinks exFS exOW exRW ["orig"] 2 none true true false []
      = FindResult.ok none [["root", "A2"], ["root", "A3"]] ∧
    find_hardlinks exFS exOW exRW ["orig"] 3 none true true false []
      = FindResult.ok none [] ∧
    find_hardlinks exFS exOW exRW ["orig"] 1 none true true true []
      = FindResult.ok none [["orig", "A"], ["root", "A2"], ["root", "A3"]] := by
  refine ⟨?_, ?_, ?_, ?_⟩ <;> decide

/-- Claim C2: for every inode group `(k, orig :: rest)` present at emission
time and every threshold `N = min_links ≥ 1`: if the group has fewer than `N`
entries beyond the designated original (`len - 1 < N`) it contributes no
output lines at all (the emitted lines are exactly those of the other
groups), and if it has at least `N` such entries the emitter outputs a
non-empty block for it. -/
theorem claim2_threshold (N : Int) (hN : 1 ≤ N) (io : Bool) (k : Nat)
    (orig : Path) (rest : List Path) (pre post : PathsPerInode) :
    (((orig :: rest).length : Int) - 1 < N →
      emit N io (pre ++ (k, orig :: rest) :: post) = emit N io (pre ++ post)) ∧
    (((orig :: rest).length : Int) - 1 ≥ N →
      ∃ block, emitGroup N io (orig :: rest) = some block ∧ block ≠ []) := by
  constructor
  · intro h
    have hg : emitGroup N io (orig :: rest) = some [] := by
      simp only [emitGroup]
      rw [if_neg (not_le.mpr h)]
    have hx : emit N io ((k, orig :: rest) :: post) = emit N io post := by
      cases e3 : emit N io post <;> simp [emit, hg, e3]
    rw [emit_append, emit_append, hx]
  · intro h
    refine ⟨(if io then [orig] else []) ++ rest, ?_, ?_⟩
    · simp only [emitGroup]
      rw [if_pos h]
    · have hrest : rest ≠ [] := by
        intro hr
        subst hr
        simp at h
        omega
      cases io <;> simp [hrest]

/-- Claim C2, witness: a one-entry group (`B` alone, no extra links) below
the threshold `N = 1` contributes nothing, while `A`'s group with one extra
entry emits a non-empty block. -/
theorem claim2_threshold_witness :
    emit 1 false [(200, [["orig", "B"]])] = emit 1 false [] ∧
    ∃ block, emitGroup 1 false [["orig", "A"], ["root", "A2"]] = some block ∧
      block ≠ [] := by
  constructor
  · exact (claim2_threshold 1 (by decide) false 200 ["orig", "B"] [] [] []).1
      (by decide)
  · exact (claim2_threshold 1 (by decide) false 100 ["orig", "A"]
      [["root", "A2"]] [] []).2 (by decide)

/-- Claim C9: a group `(k, orig :: rest)` that meets the threshold
contributes, between the lines of the groups before and after it, exactly
the block consisting of the designated original `orig` first (iff
`include_originals_in_output` is true) followed by all remaining paths
`rest` in their stored order; with the flag false the original is omitted. -/
theorem claim9_originals_policy (m : Int) (io : Bool) (k : Nat) (orig : Path)
    (rest : List Path) (pre post : PathsPerInode)
    (h : ((orig :: rest).length : Int) - 1 ≥ m) :
    emit m io (pre ++ (k, orig :: rest) :: post) =
      (emit m io pre).bind (fun a => (emit m io post).map
        (fun c => a ++ ((if io then [orig] else []) ++ rest) ++ c)) := by
  have hg : emitGroup m io (orig :: rest)
      = some ((if io then [orig] else []) ++ rest) := by
    simp only [emitGroup]
    rw [if_pos h]
  rw [emit_append]
  have hx : emit m io ((k, orig :: rest) :: post)
      = (emit m io post).map
          (fun c => ((if io then [orig] else []) ++ rest) ++ c) := by
    cases e3 : emit m io post <;> simp [emit, hg, e3]
  rw [hx]
  cases e1 : emit m io pre <;> cases e3 : emit m io post <;>
    simp [List.append_assoc]

/-- Claim C9, witness: on `A`'s group `[A, A2, A3]` with threshold 1, the
emitter produces `A2, A3` when originals are excluded and `A, A2, A3` (the
original first) when they are included. -/
theorem claim9_originals_policy_witness :
    emit 1 false [(100, [["orig", "A"], ["root", "A2"], ["root", "A3"]])] =
      (emit 1 false []).bind (fun a => (emit 1 false []).map
        (fun c => a ++ ((if false then [["orig", "A"]] else []) ++
          [["root", "A2"], ["root", "A3"]]) ++ c)) ∧
    emit 1 true [(100, [["orig", "A"], ["root", "A2"], ["root", "A3"]])] =
      (emit 1 true []).bind (fun a => (emit 1 true []).map
        (fun c => a ++ ((if true then [["orig", "A"]] else []) ++
          [["root", "A2"], ["root", "A3"]]) ++ c)) := by
  constructor
  · exact claim9_originals_policy 1 false 100 ["orig", "A"]
      [["root", "A2"], ["root", "A3"]] [] [] (by decide)
  · exact claim9_originals_policy 1 true 100 ["orig", "A"]
      [["root", "A2"], ["root", "A3"]] [] [] (by decide)

/-- Claim C3: every group present after both phases splits as `o ++ extra`
where `o` is the group phase 1 built (non-empty, every element a file
enumerated under the originals tree with that inode — so the first element
of the group is a phase-1 originals path), and `extra` holds only paths
appended in phase 2 from files the root walk submitted (the classifier
creates no new key: the key already had group `o` after phase 1, an inode
of some originals-tree file). -/
theorem claim3_invariant (fs : FileSystem) (ss : Bool) (orig : Path)
    (ow rw : List (Path × List String)) (sd : List Path) (k : Nat)
    (g : List Path)
    (h : lookupGroup (runClassifyFrom fs ss orig (rootFiles sd rw)
          (runIndexFrom fs (walkFiles ow) ([], [])).2) k = some g) :
    ∃ o extra, g = o ++ extra ∧ o ≠ [] ∧
      lookupGroup (runIndexFrom fs (walkFiles ow) ([], [])).2 k = some o ∧
      (∀ p ∈ o, p ∈ walkFiles ow ∧ fs.inodeOf p = some k) ∧
      (∀ p ∈ extra, ∃ f ∈ rootFiles sd rw, p = effPath fs ss f) ∧
      (∃ p ∈ walkFiles ow, fs.inodeOf p = some k) := by
  cases hold : lookupGroup (runIndexFrom fs (walkFiles ow) ([], [])).2 k with
  | none =>
    rw [lookupGroup_runClassifyFrom_none fs ss orig k _ _ hold] at h
    cases h
  | some o =>
    obtain ⟨extra, h1, h2⟩ :=
      lookupGroup_runClassifyFrom fs ss orig k (rootFiles sd rw) _ o hold
    rw [h] at h1
    have hg : g = o ++ extra := Option.some.inj h1
    have hidx := runIndexFrom_groups fs (walkFiles ow) (walkFiles ow)
      ([], []) (fun _ hf => hf)
      (fun k' g' h' => by simp [lookupGroup] at h') k o hold
    obtain ⟨hone, hmem⟩ := hidx
    refine ⟨o, extra, hg, hone, rfl, hmem, h2, ?_⟩
    obtain ⟨p0, hp0⟩ : ∃ p0, p0 ∈ o := by
      cases o with
      | nil => exact absurd rfl hone
      | cons a b => exact ⟨a, List.mem_cons_self _ _⟩
    exact ⟨p0, (hmem p0 hp0).1, (hmem p0 hp0).2⟩

/-- Claim C3, witness: inode 100's group after both phases of the example
run is `[A, A2, A3]` — the original `A` first, the root-tree discoveries
appended after it. -/
theorem claim3_invariant_witness :
    ∃ o extra,
      ([["orig", "A"], ["root", "A2"], ["root", "A3"]] : List Path)
        = o ++ extra ∧
      o ≠ [] ∧
      lookupGroup (runIndexFrom exFS (walkFiles exOW) ([], [])).2 100
        = some o ∧
      (∀ p ∈ o, p ∈ walkFiles exOW ∧ exFS.inodeOf p = some 100) ∧
      (∀ p ∈ extra, ∃ f ∈ rootFiles [] exRW, p = effPath exFS true f) ∧
      (∃ p ∈ walkFiles exOW, exFS.inodeOf p = some 100) :=
  claim3_invariant exFS true ["orig"] exOW exRW [] 100
    [["orig", "A"], ["root", "A2"], ["root", "A3"]] (by decide)

/-- Claim C4: a file whose (possibly symlink-resolved) path lies inside the
originals directory tree is ignored by the classifier — no inode group
changes; in particular a file inside the originals directory reached via a
symlink from outside, with the resolve-symlinks policy, never contributes. -/
theorem claim4_originals_excluded (fs : FileSystem) (ss : Bool)
    (orig fp : Path) (ppi : PathsPerInode)
    (h : isRelativeTo (if fs.isSymlink fp then fs.resolveLink fp else fp)
      orig = true) :
    check_if_file_is_hardlink fs fp ppi ss orig = ppi := by
  by_cases hsym : fs.isSymlink fp
  · cases ss with
    | true => simp [check_if_file_is_hardlink, hsym]
    | false =>
      have h' : isRelativeTo (fs.resolveLink fp) orig = true := by
        simpa [hsym] using h
      simp [check_if_file_is_hardlink, classifyStep, hsym, h']
  · have h' : isRelativeTo fp orig = true := by simpa [hsym] using h
    simp [check_if_file_is_hardlink, classifyStep, hsym, h']

/-- Claim C4, witness: `root/L` is a symlink resolving to `orig/A`, inside
the originals tree; with resolve-symlinks active the classifier leaves the
inode groups untouched. -/
theorem claim4_originals_excluded_witness :
    check_if_file_is_hardlink exFS ["root", "L"] [(100, [["orig", "A"]])]
      false ["orig"] = [(100, [["orig", "A"]])] :=
  claim4_originals_excluded exFS false ["orig"] ["root", "L"]
    [(100, [["orig", "A"]])] (by decide)

/-- Claim C5: `min_links < 1` yields the `ValueError` whatever the
filesystem, walks, skip configuration or output-file configuration are (the
result does not depend on them: nothing is opened, walked or statted), and
`min_links ≥ 1` never yields that error. -/
theorem claim5_validation (fs : FileSystem)
    (ow rw : List (Path × List String)) (orig : Path) (ml : Int)
    (tf : Option Path) (af ss io : Bool) (sd : List Path) (msg : String) :
    (ml < 1 → find_hardlinks fs ow rw orig ml tf af ss io sd
      = FindResult.valueError "min_links must be at least 1") ∧
    (1 ≤ ml → find_hardlinks fs ow rw orig ml tf af ss io sd
      ≠ FindResult.valueError msg) := by
  constructor
  · intro h
    simp only [find_hardlinks, if_pos h]
  · intro h
    unfold find_hardlinks
    rw [if_neg (not_lt.mpr h)]
    cases emit ml io (runClassifyFrom fs ss orig (rootFiles sd rw)
        (runIndexFrom fs (walkFiles ow) ([], [])).2) <;> simp

/-- Claim C5, witness: `min_links = 0` raises the `ValueError` on the
example configuration; `min_links = 1` does not. -/
theorem claim5_validation_witness :
    find_hardlinks exFS exOW exRW ["orig"] 0 none true true false []
      = FindResult.valueError "min_links must be at least 1" ∧
    find_hardlinks exFS exOW exRW ["orig"] 1 none true true false []
      ≠ FindResult.valueError "min_links must be at least 1" := by
  constructor
  · exact (claim5_validation exFS exOW exRW ["orig"] 0 none true true false
      [] "min_links must be at least 1").1 (by decide)
  · exact (claim5_validation exFS exOW exRW ["orig"] 1 none true true false
      [] "min_links must be at least 1").2 (by decide)

/-- Claim C6: a file whose stat raises `FileNotFoundError` (modelled as
`inodeOf = none`, for the path itself in phase 1 and for its possibly
resolved path in phase 2) contributes no entry in either phase, and the
whole phase result is exactly what it would be had the file never been
enumerated — all other files are unaffected. -/
theorem claim6_race (fs : FileSystem) (ss : Bool) (orig p : Path)
    (pre post : List Path) (st : InodeMap × PathsPerInode)
    (ppi : PathsPerInode)
    (h1 : fs.inodeOf p = none)
    (h2 : fs.inodeOf (if fs.isSymlink p then fs.resolveLink p else p)
      = none) :
    runIndexFrom fs (pre ++ p :: post) st = runIndexFrom fs (pre ++ post) st ∧
    runClassifyFrom fs ss orig (pre ++ p :: post) ppi
      = runClassifyFrom fs ss orig (pre ++ post) ppi := by
  have hidx : ∀ s, add_file_inode_to_map fs p s = s := by
    intro s
    unfold add_file_inode_to_map
    rw [h1]
  have hcls : ∀ m, check_if_file_is_hardlink fs p m ss orig = m := by
    intro m
    by_cases hsym : fs.isSymlink p
    · have h2' : fs.inodeOf (fs.resolveLink p) = none := by
        simpa [hsym] using h2
      cases ss with
      | true => simp [check_if_file_is_hardlink, hsym]
      | false =>
        simp [check_if_file_is_hardlink, hsym,
          classifyStep_of_inodeOf_none fs orig m _ h2']
    · simp [check_if_file_is_hardlink, hsym,
        classifyStep_of_inodeOf_none fs orig m _ h1]
  constructor
  · unfold runIndexFrom
    simp only [List.foldl_append, List.foldl_cons, hidx]
  · unfold runClassifyFrom
    simp only [List.foldl_append, List.foldl_cons, hcls]

/-- Claim C6, witness: `root/gone` stats to `FileNotFoundError` in the
example filesystem; dropping it from either phase's work list changes
nothing. -/
theorem claim6_race_witness :
    runIndexFrom exFS ([["root", "A2"]] ++ ["root", "gone"] :: [["root", "C"]])
      ([], []) = runIndexFrom exFS ([["root", "A2"]] ++ [["root", "C"]])
      ([], []) ∧
    runClassifyFrom exFS true ["orig"]
      ([["root", "A2"]] ++ ["root", "gone"] :: [["root", "C"]])
      [(100, [["orig", "A"]])] =
    runClassifyFrom exFS true ["orig"] ([["root", "A2"]] ++ [["root", "C"]])
      [(100, [["orig", "A"]])] :=
  claim6_race exFS true ["orig"] ["root", "gone"] [["root", "A2"]]
    [["root", "C"]] ([], []) [(100, [["orig", "A"]])] (by decide) (by decide)

/-- Claim C7: with `skip_symlinks = true` the classifier returns on a
symbolic link without touching any inode group, and a whole phase-2 run is
exactly what it would be had the symlink never been submitted — its path
(whatever it points to) never reaches any group or the output. -/
theorem claim7_skip_symlinks (fs : FileSystem) (orig fp : Path)
    (ppi : PathsPerInode) (pre post : List Path)
    (h : fs.isSymlink fp = true) :
    check_if_file_is_hardlink fs fp ppi true orig = ppi ∧
    runClassifyFrom fs true orig (pre ++ fp :: post) ppi
      = runClassifyFrom fs true orig (pre ++ post) ppi := by
  have hstep : ∀ m, check_if_file_is_hardlink fs fp m true orig = m := by
    intro m
    simp [check_if_file_is_hardlink, h]
  refine ⟨hstep ppi, ?_⟩
  unfold runClassifyFrom
  simp only [List.foldl_append, List.foldl_cons, hstep]

/-- Claim C7, witness: the symlink `root/L` (which resolves to `orig/A`,
inode 100) is ignored entirely under the skip-symlinks policy. -/
theorem claim7_skip_symlinks_witness :
    check_if_file_is_hardlink exFS ["root", "L"] [(100, [["orig", "A"]])]
      true ["orig"] = [(100, [["orig", "A"]])] ∧
    runClassifyFrom exFS true ["orig"] ([] ++ ["root", "L"] :: [["root", "A2"]])
      [(100, [["orig", "A"]])] =
    runClassifyFrom exFS true ["orig"] ([] ++ [["root", "A2"]])
      [(100, [["orig", "A"]])] :=
  claim7_skip_symlinks exFS ["orig"] ["root", "L"] [(100, [["orig", "A"]])]
    [] [["root", "A2"]] (by decide)

/-- Claim C8: a file of a walked directory that lies under (directory-prefix
match) some configured skip-directory is never among the files submitted to
the classifier. -/
theorem claim8_skip_directories (sd : List Path)
    (walk : List (Path × List String)) (d : Path) (files : List String)
    (f : String) (s : Path)
    (_hmem : (d, files) ∈ walk) (hs : s ∈ sd)
    (hrel : isRelativeTo d s = true) (_hf : f ∈ files) :
    (d ++ [f]) ∉ rootFiles sd walk := by
  intro hin
  unfold rootFiles walkFiles at hin
  rw [List.mem_flatMap] at hin
  obtain ⟨e, he, hpe⟩ := hin
  rw [List.mem_map] at hpe
  obtain ⟨f', _, hpe⟩ := hpe
  have hde : e.1 = d := (List.append_inj' hpe (by simp)).1
  have hns : notSkipped sd e.1 = true := (List.mem_filter.mp he).2
  rw [hde] at hns
  unfold notSkipped at hns
  simp only [Bool.not_eq_true'] at hns
  rw [List.any_eq_false] at hns
  exact hns s hs hrel

/-- Claim C8, witness: directory `root/skip/sub` lies under the configured
skip-directory `root/skip`, so its file `f` is not submitted. -/
theorem claim8_skip_directories_witness :
    (["root", "skip", "sub"] ++ ["f"]) ∉
      rootFiles [["root", "skip"]] [(["root", "skip", "sub"], ["f"])] :=
  claim8_skip_directories [["root", "skip"]]
    [(["root", "skip", "sub"], ["f"])] ["root", "skip", "sub"] ["f"] "f"
    ["root", "skip"] (by decide) (by decide) (by decide) (by decide)

/-- Claim C10: the emitter's unconditional `paths[0]` can never fail: every
group a run builds is non-empty (a key is only created by an append that
inserts a path in the same step), so `find_hardlinks` never produces the
`IndexError` outcome, whatever the configuration and filesystem. -/
theorem claim10_no_indexerror (fs : FileSystem)
    (ow rw : List (Path × List String)) (orig : Path) (ml : Int)
    (tf : Option Path) (af ss io : Bool) (sd : List Path) :
    find_hardlinks fs ow rw orig ml tf af ss io sd
      ≠ FindResult.indexError := by
  unfold find_hardlinks
  by_cases h : ml < 1
  · rw [if_pos h]
    simp
  · rw [if_neg h]
    have hne : ∀ e ∈ runClassifyFrom fs ss orig (rootFiles sd rw)
        (runIndexFrom fs (walkFiles ow) ([], [])).2, e.2 ≠ [] :=
      runClassifyFrom_nonempty fs ss orig _ _
        (runIndexFrom_nonempty fs _ _ (by simp))
    obtain ⟨l, hl⟩ := emit_isSome ml io _ hne
    rw [hl]
    simp

end FindHardlinks
